import Mathlib

/-!
Verification of the iSubRip core (src/isubrip/playlist_downloader.py and
src/isubrip/scraper.py) against its natural-language specification.

The Python code is shallowly embedded: pure functions become Lean functions,
fallible code returns `Except`, the network is an oracle parameter, and the
concurrent segment download is modelled as completion-order writes into
index-addressed slots.  Functions whose bodies live outside src/ (the
`Subtitles` merger/serializer and `format_title` from isubrip.utils /
isubrip.subtitles) are modelled from the specification and marked as such.
-/

/-! ## Enums (isubrip.enums) -/

/-- Subtitles kind, mirroring `SubtitlesType` (NORMAL / FORCED / CC). -/
inductive SubtitlesType where
  | NORMAL : SubtitlesType
  | FORCED : SubtitlesType
  | CC : SubtitlesType
deriving DecidableEq, Repr

/-- Output format, mirroring `SubtitlesFormat` (VTT / SRT). -/
inductive SubtitlesFormat where
  | VTT : SubtitlesFormat
  | SRT : SubtitlesFormat
deriving DecidableEq, Repr

/-- Python `subtitles_type.name.lower()`. -/
def SubtitlesType.lowerName : SubtitlesType → String
  | SubtitlesType.NORMAL => "normal"
  | SubtitlesType.FORCED => "forced"
  | SubtitlesType.CC => "cc"

/-- Python `file_format.name.lower()`. -/
def SubtitlesFormat.lowerName : SubtitlesFormat → String
  | SubtitlesFormat.VTT => "vtt"
  | SubtitlesFormat.SRT => "srt"

/-! ## String helpers -/

/-- Does `needle` occur as a contiguous run inside the character list?
Models the Python substring test `sub in s`. -/
def has_sub (needle : List Char) : List Char → Bool
  | [] => needle.isEmpty
  | c :: rest => List.isPrefixOf needle (c :: rest) || has_sub needle rest

/-- Python `sub in s` on strings. -/
def str_contains (s sub : String) : Bool :=
  has_sub sub.data s.data

/-- Python `str.lower()` (ASCII case folding suffices for the data involved). -/
def lower_str (s : String) : String :=
  String.mk (s.data.map Char.toLower)

/-- Modelled from the spec: `format_title` (isubrip.utils, not under src/)
slugifies a movie title: `"Example Movie"` becomes `"example.movie"`
(lower-case, spaces turned into dots). -/
def format_title (title : String) : String :=
  String.mk (title.data.map (fun c => if c = ' ' then '.' else c.toLower))

/-! ## PlaylistDownloader._format_file_name -/

/-- Embedding of `PlaylistDownloader._format_file_name`: the year segment is
added only when `str(release_year)` does not occur in the title, the type
suffix only when the type is not NORMAL, and the format extension always. -/
def format_file_name (movie_title : String) (release_year : Int)
    (language_code : String) (subtitles_type : SubtitlesType)
    (file_format : SubtitlesFormat) : String :=
  let movie_release_year_str :=
    if str_contains movie_title (toString release_year) then ""
    else "." ++ toString release_year
  let file_name :=
    format_title movie_title ++ movie_release_year_str ++ ".iT.WEB." ++ language_code
  let file_name :=
    if subtitles_type ≠ SubtitlesType.NORMAL then
      file_name ++ "." ++ subtitles_type.lowerName
    else file_name
  file_name ++ "." ++ file_format.lowerName

/-! ## Concurrent segment download (PlaylistDownloader.get_subtitles)

`get_subtitles` creates one task per playlist segment, in segment-list order,
and collects them with `asyncio.gather`, which returns the results in task
order no matter when each task completes.  We model the execution: tasks
complete in an arbitrary order `order` (a list of segment indices), each
completion stores its text into the slot of its own index, and the gathered
list reads the slots back in index order. -/

/-- Store `v` into position `i` of the slot list (no-op out of range). -/
def write_slot : List (Option String) → Nat → String → List (Option String)
  | [], _, _ => []
  | _ :: rest, 0, v => some v :: rest
  | x :: rest, n + 1, v => x :: write_slot rest n v

/-- Run the completions in completion order: completion of task `i` writes
segment `i`'s text into slot `i`. -/
def run_completions (texts : List String) (order : List Nat) : List (Option String) :=
  order.foldl (fun slots i => write_slot slots i (texts.getD i "")) (List.replicate texts.length none)

/-- The list `asyncio.gather` hands back to `get_subtitles`, which is then
passed segment by segment to the merger. -/
def gather_results (texts : List String) (order : List Nat) : List String :=
  (run_completions texts order).map (fun o => o.getD "")

/-- Modelled from the spec: the `Subtitles` merger (isubrip.subtitles, not
under src/) parses each segment text into cues and appends them in the order
the segments are handed over. -/
def merge_segments {Cue : Type} (loads : String → List Cue) (segs : List String) : List Cue :=
  segs.foldl (fun acc s => acc ++ loads s) []

/-! ## Failing batches (PlaylistDownloader.download_subtitles) -/

/-- The ways a single segment fetch can raise: a transport error from
`session.get` or the body read, or a UTF-8 decode failure.  A non-success
HTTP status does NOT raise: the session is created without
`raise_for_status` and `_download_segment` never inspects the status, so an
error page's body is decoded and merged like any other segment. -/
inductive FetchErr where
  | transport : FetchErr
  | decodeFailure : FetchErr
deriving DecidableEq, Repr

/-- What the network returns for one segment request: either the request or
the body read raises a transport error, or a response arrives with a status
code and a body (`none` models a body that is not valid UTF-8). -/
inductive SegFetch where
  | transportError : SegFetch
  | response : Nat → Option String → SegFetch
deriving DecidableEq, Repr

/-- Embedding of `PlaylistDownloader._download_segment`: `session.get`, read
the body, decode it as UTF-8.  The status code is never checked, so a
non-success response's body is returned like any other. -/
def download_segment : SegFetch → Except FetchErr String
  | SegFetch.transportError => Except.error FetchErr.transport
  | SegFetch.response _ none => Except.error FetchErr.decodeFailure
  | SegFetch.response _ (some text) => Except.ok text

/-- Boolean success test on `Except`. -/
def except_is_ok {ε α : Type} : Except ε α → Bool
  | Except.ok _ => true
  | Except.error _ => false

/-- The exception `asyncio.gather` propagates: the first fetch, in completion
order, whose result is an error. -/
def first_failure (fetches : List (Except FetchErr String)) (order : List Nat) :
    Option FetchErr :=
  order.findSome? fun i =>
    match fetches.getD i (Except.ok "") with
    | Except.error e => some e
    | Except.ok _ => none

/-- Model of `asyncio.gather` over possibly-failing fetches: if any completed task
raised, the whole gather raises; otherwise the results come back in task
(segment-list) order. -/
def gather_except (fetches : List (Except FetchErr String)) (order : List Nat) :
    Except FetchErr (List String) :=
  match first_failure fetches order with
  | some e => Except.error e
  | none =>
    Except.ok (fetches.map fun r =>
      match r with
      | Except.ok s => s
      | Except.error _ => "")

/-- Outcome of `download_subtitles`: the returned path (or the propagated
exception) together with the content of the output file after the call. -/
structure DownloadResult where
  outcome : Except FetchErr String
  fileContent : String
deriving Repr

/-- Embedding of `PlaylistDownloader.download_subtitles`.  Python evaluation
order: `open(path, 'w')` truncates the file to empty, then the write argument
`self.get_subtitles(...).dumps(file_format)` is evaluated; `f.write` runs only
if that evaluation returns.  So when any segment fetch raises, the exception
propagates out and the file is left empty: no cue content is ever written.
The serializer `dumps` (isubrip.subtitles, not under src/) is modelled from
the spec as a pure function of the merged cue list. -/
def download_subtitles {Cue : Type} (loads : String → List Cue)
    (dumps : List Cue → String) (path : String)
    (net : List SegFetch) (order : List Nat) : DownloadResult :=
  match gather_except (net.map download_segment) order with
  | Except.error e => ⟨Except.error e, ""⟩
  | Except.ok segs => ⟨Except.ok path, dumps (merge_segments loads segs)⟩

/-! ## Release-year derivation (Scraper) -/

/-- Day count of a month, as `datetime` validates it. -/
def days_in_month (y : Nat) (m : Nat) : Nat :=
  if m = 2 then
    if y % 4 = 0 ∧ (y % 100 ≠ 0 ∨ y % 400 = 0) then 29 else 28
  else if m = 4 ∨ m = 6 ∨ m = 9 ∨ m = 11 then 30
  else 31

/-- Split a character list on a separator character. -/
def split_on_char (sep : Char) : List Char → List (List Char)
  | [] => [[]]
  | c :: rest =>
    let r := split_on_char sep rest
    if c = sep then [] :: r
    else
      match r with
      | [] => [[c]]
      | g :: gs => (c :: g) :: gs

/-- Parse a non-empty all-digit character run as a natural number. -/
def digits_to_nat_aux : List Char → Nat → Option Nat
  | [], acc => some acc
  | c :: rest, acc =>
    if c.isDigit then digits_to_nat_aux rest (acc * 10 + (c.toNat - '0'.toNat))
    else none

/-- Parse a digit run; empty input is rejected. -/
def digits_to_nat : List Char → Option Nat
  | [] => none
  | c :: rest => digits_to_nat_aux (c :: rest) 0

/-- Errors raised by the scraper embedding. -/
inductive Err where
  | keyError : String → Err
  | indexError : Err
  | typeError : Err
  | valueError : Err
  | jsonDecodeError : Err
  | pageLoadError : String → Err
  | httpStatusError : Err
  | urlError : Err
deriving DecidableEq, Repr

/-- Embedding of `datetime.strptime(s, '%Y-%m-%d').year`: the string must be
three dash-separated digit runs forming a valid calendar date; the result is
the year.  Failure models the `ValueError` strptime raises. -/
def strptime_ymd_year (s : String) : Except Err Int :=
  match split_on_char '-' s.data with
  | [ys, ms, ds] =>
    match digits_to_nat ys, digits_to_nat ms, digits_to_nat ds with
    | some y, some m, some d =>
      if 1 ≤ m ∧ m ≤ 12 ∧ 1 ≤ d ∧ d ≤ days_in_month y m then Except.ok (y : Int)
      else Except.error Err.valueError
    | _, _, _ => Except.error Err.valueError
  | _ => Except.error Err.valueError

/-- Calendar year of the day `z0` days after 1970-01-01 (proleptic Gregorian,
negative offsets allowed), following the standard civil-from-days algorithm. -/
def year_of_epoch_days (z0 : Int) : Int :=
  let z := z0 + 719468
  let era := Int.fdiv z 146097
  let doe := (z - era * 146097).toNat
  let yoe := (doe - doe / 1460 + doe / 36524 - doe / 146096) / 365
  let y : Int := (yoe : Int) + era * 400
  let doy := doe - (365 * yoe + yoe / 4 - yoe / 100)
  let mp := (5 * doy + 2) / 153
  let m := if mp < 10 then mp + 3 else mp - 9
  if m ≤ 2 then y + 1 else y

/-- Embedding of the release-year computation in
`Scraper._find_playlist_data_appletv_json_`: Python `releaseDate // 1000` is
floor division; a positive epoch goes through `datetime.fromtimestamp`
(modelled in UTC), a non-positive one through
`datetime(1970, 1, 1) + timedelta(seconds=release_epoch)`, whose day offset is
the floor of the seconds by 86400. -/
def appletv_release_year (releaseDate : Int) : Int :=
  let release_epoch := Int.fdiv releaseDate 1000
  if release_epoch > 0 then year_of_epoch_days (Int.fdiv release_epoch 86400)
  else year_of_epoch_days (Int.fdiv release_epoch 86400)

/-! ## JSON values and Python-style access -/

/-- JSON values, as `json.loads` produces them. -/
inductive JVal where
  | jnull : JVal
  | jbool : Bool → JVal
  | jnum : Int → JVal
  | jstr : String → JVal
  | jarr : List JVal → JVal
  | jobj : List (String × JVal) → JVal
deriving Repr, Inhabited

/-- Python `d[k]`: `KeyError` when the key is absent, `TypeError`-style
failure when the value is not a dict. -/
def JVal.getKey : JVal → String → Except Err JVal
  | JVal.jobj fields, k =>
    match fields.lookup k with
    | some v => Except.ok v
    | none => Except.error (Err.keyError k)
  | _, _ => Except.error Err.typeError

/-- Python `d.get(k)`: requires a dict, yields `None` for an absent key. -/
def JVal.getOpt : JVal → String → Except Err (Option JVal)
  | JVal.jobj fields, k => Except.ok (fields.lookup k)
  | _, _ => Except.error Err.typeError

/-- Require a JSON string (a non-string where the code then uses the value as
a URL or dict key raises downstream in Python; modelled as a type failure). -/
def JVal.asStr : JVal → Except Err String
  | JVal.jstr s => Except.ok s
  | _ => Except.error Err.typeError

/-- Require a JSON number (an `int` in the responses involved). -/
def JVal.asInt : JVal → Except Err Int
  | JVal.jnum n => Except.ok n
  | _ => Except.error Err.typeError

/-- Python truthiness of a JSON value, as used by `if playable["isItunes"]:`. -/
def JVal.truthy : JVal → Bool
  | JVal.jnull => false
  | JVal.jbool b => b
  | JVal.jnum n => n != 0
  | JVal.jstr s => s != ""
  | JVal.jarr xs => !xs.isEmpty
  | JVal.jobj fs => !fs.isEmpty

/-! ## Scraper data model (isubrip.namedtuples) -/

/-- Which platform a record came from (isubrip.enums.DataSource). -/
inductive DataSource where
  | itunes : DataSource
  | appletv : DataSource
deriving DecidableEq, Repr

/-- The `PlaylistData` namedtuple: a platform id with its validated playlist URL. -/
structure PlaylistData where
  itunes_id : String
  playlist_url : String
deriving DecidableEq, Repr

/-- The `MovieData` namedtuple. -/
structure MovieData where
  source : DataSource
  name : String
  release_year : Int
  playlists : List PlaylistData
deriving DecidableEq, Repr

/-- Outcome of the validation fetch `m3u8.load(url)`: success, a parse
failure (`ValueError`), an HTTP error status (`urllib.error.HTTPError`), or
an uncaught transport error (`urllib.error.URLError` proper — connection or
DNS failure), which none of the scraper's except clauses match and which
therefore propagates to the caller. -/
inductive LoadResult where
  | ok : LoadResult
  | valueError : LoadResult
  | httpError : LoadResult
  | urlError : LoadResult
deriving DecidableEq, Repr

/-- The network, seen as a map from URL to validation outcome. -/
def Oracle := String → LoadResult

/-! ## Scraper._find_playlist_data_itunes_json_

The function reads the required fields in source order and then scans
`movie_data["offers"]`; each extraction function below returns the result
paired with the trace of URLs passed to `m3u8.load`, in call order. -/

/-- The field extraction performed before the offers loop (each lookup raises
on absence, `strptime` raises on a malformed date). -/
structure ItunesFields where
  itunes_id : String
  movie_title : String
  movie_release_year : Int
  offers : List JVal

/-- Sequential extraction of the iTunes JSON fields, in source order:
`pageData.id`, `storePlatformData.product-dv.results[id]`, `nameRaw`,
`releaseDate` (strptime `%Y-%m-%d`), `offers` (must be a list to iterate). -/
def parse_itunes_fields (json_data : JVal) : Except Err ItunesFields := do
  let idv ← (← json_data.getKey "pageData").getKey "id"
  let itunes_id ← idv.asStr
  let spd ← json_data.getKey "storePlatformData"
  let pdv ← spd.getKey "product-dv"
  let results ← pdv.getKey "results"
  let movie_data ← results.getKey itunes_id
  let movie_title ← (← movie_data.getKey "nameRaw").asStr
  let rd ← (← movie_data.getKey "releaseDate").asStr
  let movie_release_year ← strptime_ymd_year rd
  let offersV ← movie_data.getKey "offers"
  match offersV with
  | JVal.jarr offers => Except.ok ⟨itunes_id, movie_title, movie_release_year, offers⟩
  | _ => Except.error Err.typeError

/-- The inner asset loop shared by the iTunes JSON path (over
`offer["assets"]`) and the AppleTV path (over
`playable["itunesMediaApiData"]["offers"]`): read `hlsUrl`, call
`m3u8.load`, skip the candidate on `ValueError` / `HTTPError` — the only
exceptions the except clauses catch — and stop at the first valid
candidate.  Any other exception (an uncaught `URLError` transport failure)
propagates.  Returns the first valid URL (if any) and the trace of URLs
loaded. -/
def scan_assets (load : Oracle) : List JVal → Except Err (Option String) × List String
  | [] => (Except.ok none, [])
  | asset :: rest =>
    match (asset.getKey "hlsUrl").bind JVal.asStr with
    | Except.error e => (Except.error e, [])
    | Except.ok url =>
      match load url with
      | LoadResult.ok => (Except.ok (some url), [url])
      | LoadResult.urlError => (Except.error Err.urlError, [url])
      | LoadResult.valueError =>
        let (r, tr) := scan_assets load rest
        (r, url :: tr)
      | LoadResult.httpError =>
        let (r, tr) := scan_assets load rest
        (r, url :: tr)

/-- The offers loop of `_find_playlist_data_itunes_json_`: an offer qualifies
when `offer.get("type")` is the string "buy" or "rent" and
`offer.get("assets")` is a non-empty list; the first valid asset URL of a
qualifying offer is returned immediately. -/
def scan_offers (load : Oracle) : List JVal → Except Err (Option String) × List String
  | [] => (Except.ok none, [])
  | offer :: rest =>
    match offer.getOpt "type" with
    | Except.error e => (Except.error e, [])
    | Except.ok tOpt =>
      match tOpt with
      | some (JVal.jstr t) =>
        if t = "buy" ∨ t = "rent" then
          match offer.getOpt "assets" with
          | Except.error e => (Except.error e, [])
          | Except.ok aOpt =>
            match aOpt with
            | some (JVal.jarr assets) =>
              if assets.isEmpty then scan_offers load rest
              else
                match scan_assets load assets with
                | (Except.error e, tr) => (Except.error e, tr)
                | (Except.ok (some url), tr) => (Except.ok (some url), tr)
                | (Except.ok none, tr) =>
                  let (r, tr') := scan_offers load rest
                  (r, tr ++ tr')
            | _ => scan_offers load rest
        else scan_offers load rest
      | _ => scan_offers load rest

/-- Embedding of `Scraper._find_playlist_data_itunes_json_`: on a first valid
asset the record carries that single playlist; if the loop completes, the
record carries an empty playlist list (a legitimate non-error outcome). -/
def find_playlist_data_itunes_json (load : Oracle) (json_data : JVal) :
    Except Err MovieData × List String :=
  match parse_itunes_fields json_data with
  | Except.error e => (Except.error e, [])
  | Except.ok f =>
    match scan_offers load f.offers with
    | (Except.error e, tr) => (Except.error e, tr)
    | (Except.ok (some url), tr) =>
      (Except.ok ⟨DataSource.itunes, f.movie_title, f.movie_release_year,
        [⟨f.itunes_id, url⟩]⟩, tr)
    | (Except.ok none, tr) =>
      (Except.ok ⟨DataSource.itunes, f.movie_title, f.movie_release_year, []⟩, tr)

/-! ## Scraper._find_playlist_data_appletv_json_ -/

/-- Field extraction before the playables loop: `data.content.title`,
`data.content.releaseDate` (epoch milliseconds), and the values of the
`data.playables` dict, in insertion order. -/
structure AppletvFields where
  movie_title : String
  movie_release_year : Int
  playables : List JVal

/-- Sequential extraction of the AppleTV JSON fields, in source order. -/
def parse_appletv_fields (json_data : JVal) : Except Err AppletvFields := do
  let dataV ← json_data.getKey "data"
  let content ← dataV.getKey "content"
  let movie_title ← (← content.getKey "title").asStr
  let releaseDate ← (← content.getKey "releaseDate").asInt
  let playablesV ← dataV.getKey "playables"
  match playablesV with
  | JVal.jobj fields =>
    Except.ok ⟨movie_title, appletv_release_year releaseDate, fields.map Prod.snd⟩
  | _ => Except.error Err.typeError

/-- The playables loop of `_find_playlist_data_appletv_json_`.  `ids_set`
mirrors `itunes_ids_set`: the source checks membership before scanning a
playable but never adds to the set, so the recursive call passes `ids_set`
unchanged — exactly as the source does. -/
def scan_playables (load : Oracle) :
    List JVal → List String → Except Err (List PlaylistData) × List String
  | [], _ => (Except.ok [], [])
  | playable :: rest, ids_set =>
    match playable.getKey "isItunes" with
    | Except.error e => (Except.error e, [])
    | Except.ok isIt =>
      if isIt.truthy then
        match (playable.getKey "externalId").bind JVal.asStr with
        | Except.error e => (Except.error e, [])
        | Except.ok itunes_id =>
          if itunes_id ∈ ids_set then scan_playables load rest ids_set
          else
            match (playable.getKey "itunesMediaApiData").bind (fun x => x.getKey "offers") with
            | Except.error e => (Except.error e, [])
            | Except.ok offersV =>
              match offersV with
              | JVal.jarr offers =>
                match scan_assets load offers with
                | (Except.error e, tr) => (Except.error e, tr)
                | (Except.ok (some url), tr) =>
                  let (r, tr') := scan_playables load rest ids_set
                  match r with
                  | Except.error e => (Except.error e, tr ++ tr')
                  | Except.ok ps => (Except.ok (⟨itunes_id, url⟩ :: ps), tr ++ tr')
                | (Except.ok none, tr) =>
                  let (r, tr') := scan_playables load rest ids_set
                  (r, tr ++ tr')
              | _ => (Except.error Err.typeError, [])
      else scan_playables load rest ids_set

/-- Embedding of `Scraper._find_playlist_data_appletv_json_`. -/
def find_playlist_data_appletv_json (load : Oracle) (json_data : JVal) :
    Except Err MovieData × List String :=
  match parse_appletv_fields json_data with
  | Except.error e => (Except.error e, [])
  | Except.ok f =>
    match scan_playables load f.playables [] with
    | (Except.error e, tr) => (Except.error e, tr)
    | (Except.ok ps, tr) =>
      (Except.ok ⟨DataSource.appletv, f.movie_title, f.movie_release_year, ps⟩, tr)

/-! ## Scraper._find_playlist_data_itunes_html_ -/

/-- The expression `item["attributes"]["assets"][0]["hlsUrl"]` that the source
evaluates inside the per-asset loop — always on element 0 of the assets
list, never on the asset being iterated. -/
def first_asset_hls (assets : List JVal) : Except Err String :=
  match assets with
  | [] => Except.error Err.indexError
  | a0 :: _ => (a0.getKey "hlsUrl").bind JVal.asStr

/-- The per-asset loop of the iTunes HTML path: the current asset contributes
only the shape guard (`isinstance(asset, dict)` and a string `hlsUrl`); the
URL that is validated and returned is computed from `assets[0]`.  Only
`ValueError` and `HTTPError` are caught; an uncaught `URLError` propagates. -/
def scan_html_assets (load : Oracle) (assets : List JVal) :
    List JVal → Except Err (Option String) × List String
  | [] => (Except.ok none, [])
  | asset :: rest =>
    match asset with
    | JVal.jobj fields =>
      match fields.lookup "hlsUrl" with
      | some (JVal.jstr _) =>
        match first_asset_hls assets with
        | Except.error e => (Except.error e, [])
        | Except.ok url =>
          match load url with
          | LoadResult.ok => (Except.ok (some url), [url])
          | LoadResult.urlError => (Except.error Err.urlError, [url])
          | LoadResult.valueError =>
            let (r, tr) := scan_html_assets load assets rest
            (r, url :: tr)
          | LoadResult.httpError =>
            let (r, tr) := scan_html_assets load assets rest
            (r, url :: tr)
      | _ => scan_html_assets load assets rest
    | _ => scan_html_assets load assets rest

/-- One item of `movie_data["included"]`: qualifies when `item.get("type")`
is the string "offer", `item.get("attributes")` is a dict whose "assets"
entry is a non-empty list; the asset loop then runs on that list. -/
def scan_offer_item (load : Oracle) (item : JVal) :
    Except Err (Option String) × List String :=
  match item.getOpt "type" with
  | Except.error e => (Except.error e, [])
  | Except.ok tOpt =>
    match tOpt with
    | some (JVal.jstr t) =>
      if t = "offer" then
        match item.getOpt "attributes" with
        | Except.error e => (Except.error e, [])
        | Except.ok aOpt =>
          match aOpt with
          | some (JVal.jobj attrs) =>
            match attrs.lookup "assets" with
            | some (JVal.jarr assets) =>
              if assets.isEmpty then (Except.ok none, [])
              else scan_html_assets load assets assets
            | _ => (Except.ok none, [])
          | _ => (Except.ok none, [])
      else (Except.ok none, [])
    | _ => (Except.ok none, [])

/-- The loop over `movie_data["included"]`: first item that yields a valid
URL wins. -/
def scan_included (load : Oracle) : List JVal → Except Err (Option String) × List String
  | [] => (Except.ok none, [])
  | item :: rest =>
    match scan_offer_item load item with
    | (Except.error e, tr) => (Except.error e, tr)
    | (Except.ok (some url), tr) => (Except.ok (some url), tr)
    | (Except.ok none, tr) =>
      let (r, tr') := scan_included load rest
      (r, tr ++ tr')

/-- The already-parsed HTML page handed to the iTunes HTML strategy:
the content of the `apple:content_id` meta tag if that tag exists, and the
shoebox script tag (`some` when the tag exists, its value being the JSON
parse result of its contents, `none` inside on a parse failure). -/
structure HtmlPage where
  itunes_id : Option String
  shoebox : Option (Option JVal)

/-- Embedding of `Scraper._find_playlist_data_itunes_html_`. -/
def find_playlist_data_itunes_html (load : Oracle) (page : HtmlPage) :
    Except Err MovieData × List String :=
  match page.itunes_id with
  | none => (Except.error (Err.pageLoadError "HTML page did not load properly."), [])
  | some itunes_id =>
    match page.shoebox with
    | none => (Except.error (Err.pageLoadError "fastboot/shoebox data could not be found."), [])
    | some none => (Except.error Err.jsonDecodeError, [])
    | some (some shoebox_data) =>
      match shoebox_data.getKey itunes_id with
      | Except.error e => (Except.error e, [])
      | Except.ok movie_data =>
        match movie_data.getOpt "included" with
        | Except.error e => (Except.error e, [])
        | Except.ok includedOpt =>
          match includedOpt with
          | some (JVal.jarr included) =>
            match (do
                let attrs ← (← movie_data.getKey "data").getKey "attributes"
                let movie_title ← (← attrs.getKey "name").asStr
                let rd ← (← attrs.getKey "releaseDate").asStr
                let movie_release_year ← strptime_ymd_year rd
                Except.ok (movie_title, movie_release_year) :
                Except Err (String × Int)) with
            | Except.error e => (Except.error e, [])
            | Except.ok (movie_title, movie_release_year) =>
              match scan_included load included with
              | (Except.error e, tr) => (Except.error e, tr)
              | (Except.ok (some url), tr) =>
                (Except.ok ⟨DataSource.itunes, movie_title, movie_release_year,
                  [⟨itunes_id, url⟩]⟩, tr)
              | (Except.ok none, tr) =>
                (Except.ok ⟨DataSource.itunes, movie_title, movie_release_year, []⟩, tr)
          | _ => (Except.error (Err.pageLoadError "Invalid shoebox data."), [])

/-! ## Scraper.get_movie_data (iTunes branch dispatch)

For an iTunes URL the strategy is chosen by the response content type alone:
a JSON response goes to the JSON strategy, an HTML (non-404) response to the
HTML strategy, anything else raises.  There is no fallback from one strategy
to the other. -/

/-- An HTTP response as `get_movie_data` inspects it: status code, declared
content type, the JSON parse of the body (`none` models a
`json.JSONDecodeError`), and the parsed HTML page. -/
structure HttpResponse where
  status_code : Nat
  content_type : String
  json_body : Option JVal
  html_body : HtmlPage

/-- Which parsing strategy a call entered. -/
inductive Strategy where
  | itunesJson : Strategy
  | itunesHtml : Strategy
deriving DecidableEq, Repr

/-- Embedding of the iTunes branch of `Scraper.get_movie_data` (after the URL
regex match and `requests.get`): `raise_for_status`, then dispatch on the
content type.  The third component records which strategies were entered. -/
def get_movie_data_itunes (load : Oracle) (resp : HttpResponse) :
    Except Err MovieData × List String × List Strategy :=
  if resp.status_code ≥ 400 then (Except.error Err.httpStatusError, [], [])
  else if str_contains resp.content_type "application/json" then
    match resp.json_body with
    | none =>
      (Except.error (Err.pageLoadError "Recieved an invalid JSON response."), [],
        [Strategy.itunesJson])
    | some jd =>
      let (r, tr) := find_playlist_data_itunes_json load jd
      (r, tr, [Strategy.itunesJson])
  else if str_contains resp.content_type "text/html" ∧ resp.status_code ≠ 404 then
    let (r, tr) := find_playlist_data_itunes_html load resp.html_body
    (r, tr, [Strategy.itunesHtml])
  else
    (Except.error (Err.pageLoadError "Recieved an invalid response. Pleas assure the URL is valid."),
      [], [])

/-! ## Scraper.find_subtitles (track selector) -/

/-- One entry of `main_playlist.media`, with the attributes the selector
reads. -/
structure MediaPlaylist where
  type : String
  group_id : String
  language : String
  name : String
  forced : String
  characteristics : Option String
  uri : String
deriving DecidableEq, Repr

/-- A parsed main playlist. -/
structure M3U8Main where
  media : List MediaPlaylist

/-- The `SubtitlesData` namedtuple (the fields `find_subtitles` yields). -/
structure SubtitlesData where
  language_code : String
  language_name : String
  sub_type : SubtitlesType
  playlist_url : String
deriving DecidableEq, Repr

/-- Kind classification: FORCED when `forced == "YES"`, else CC when the
characteristics contain "public.accessibility", else NORMAL. -/
def classify_sub_type (p : MediaPlaylist) : SubtitlesType :=
  if p.forced = "YES" then SubtitlesType.FORCED
  else
    match p.characteristics with
    | some ch =>
      if str_contains ch "public.accessibility" then SubtitlesType.CC
      else SubtitlesType.NORMAL
    | none => SubtitlesType.NORMAL

/-- Embedding of `Scraper.find_subtitles`.  The filter entries are
lower-cased up front; a track passes the filter when its lower-cased
language code is in the filter or its display name — compared as written,
not lower-cased — is in the filter. -/
def find_subtitles (main_playlist : M3U8Main)
    (subtitles_filter : Option (List String)) : List SubtitlesData :=
  let filt := subtitles_filter.map (fun l => l.map lower_str)
  main_playlist.media.filterMap fun playlist =>
    if playlist.type = "SUBTITLES" ∧
        (playlist.group_id = "subtitles_ak" ∨
          playlist.group_id = "subtitles_vod-ak-amt.tv.apple.com") then
      match filt with
      | some fl =>
        if lower_str playlist.language ∈ fl ∨ playlist.name ∈ fl then
          some ⟨playlist.language, playlist.name, classify_sub_type playlist, playlist.uri⟩
        else none
      | none =>
        some ⟨playlist.language, playlist.name, classify_sub_type playlist, playlist.uri⟩
    else none

/-! ## Well-formedness of the scanned collections

These predicates say the loops can run to completion without a field error:
they quantify over exactly the accesses the loops perform. -/

/-- An asset the inner loop can process: a dict with a string `hlsUrl`. -/
def asset_well_formed (a : JVal) : Bool :=
  match a with
  | JVal.jobj fields =>
    match fields.lookup "hlsUrl" with
    | some (JVal.jstr _) => true
    | _ => false
  | _ => false

/-- The URL of a well-formed asset (dummy for a malformed one). -/
def asset_url (a : JVal) : String :=
  match a with
  | JVal.jobj fields =>
    match fields.lookup "hlsUrl" with
    | some (JVal.jstr s) => s
    | _ => ""
  | _ => ""

/-- An offer the iTunes JSON loop can process: a dict, and all its assets
well-formed whenever the offer qualifies for scanning. -/
def offer_well_formed (o : JVal) : Bool :=
  match o with
  | JVal.jobj fields =>
    match fields.lookup "type" with
    | some (JVal.jstr t) =>
      if t = "buy" ∨ t = "rent" then
        match fields.lookup "assets" with
        | some (JVal.jarr assets) => assets.all asset_well_formed
        | _ => true
      else true
    | _ => true
  | _ => false

/-- The candidate URLs an offer exposes to the scan (empty when the offer
does not qualify). -/
def offer_candidate_urls (o : JVal) : List String :=
  match o with
  | JVal.jobj fields =>
    match fields.lookup "type" with
    | some (JVal.jstr t) =>
      if t = "buy" ∨ t = "rent" then
        match fields.lookup "assets" with
        | some (JVal.jarr assets) => assets.map asset_url
        | _ => []
      else []
    | _ => []
  | _ => []

/-- All candidate URLs of an offers list, in scan order. -/
def itunes_candidate_urls (offers : List JVal) : List String :=
  offers.foldr (fun o acc => offer_candidate_urls o ++ acc) []

/-- A playable the AppleTV loop can process: a dict with an `isItunes` key,
and — when truthy — a string `externalId` and an `itunesMediaApiData.offers`
list of well-formed offers. -/
def playable_well_formed (p : JVal) : Bool :=
  match p with
  | JVal.jobj fields =>
    match fields.lookup "isItunes" with
    | some isIt =>
      if isIt.truthy then
        match fields.lookup "externalId" with
        | some (JVal.jstr _) =>
          match fields.lookup "itunesMediaApiData" with
          | some (JVal.jobj mfields) =>
            match mfields.lookup "offers" with
            | some (JVal.jarr offers) => offers.all asset_well_formed
            | _ => false
          | _ => false
        | _ => false
      else true
    | _ => false
  | _ => false

/-- The candidate URLs a playable exposes to the scan. -/
def playable_candidate_urls (p : JVal) : List String :=
  match p with
  | JVal.jobj fields =>
    match fields.lookup "isItunes" with
    | some isIt =>
      if isIt.truthy then
        match fields.lookup "itunesMediaApiData" with
        | some (JVal.jobj mfields) =>
          match mfields.lookup "offers" with
          | some (JVal.jarr offers) => offers.map asset_url
          | _ => []
        | _ => []
      else []
    | _ => []
  | _ => []

/-- All candidate URLs of a playables list, in scan order. -/
def appletv_candidate_urls (playables : List JVal) : List String :=
  playables.foldr (fun p acc => playable_candidate_urls p ++ acc) []

/-- The assets list an `included` item hands to the per-asset loop, when the
item qualifies as an offer with a non-empty assets list. -/
def item_assets (item : JVal) : Option (List JVal) :=
  match item with
  | JVal.jobj fields =>
    match fields.lookup "type" with
    | some (JVal.jstr t) =>
      if t = "offer" then
        match fields.lookup "attributes" with
        | some (JVal.jobj attrs) =>
          match attrs.lookup "assets" with
          | some (JVal.jarr assets) => if assets.isEmpty then none else some assets
          | _ => none
        | _ => none
      else none
    | _ => none
  | _ => none

/-! ## Concrete inputs used by counterexamples and witnesses -/

/-- A JSON response (status 200, content type application/json) whose body is
an empty object: the required field `pageData` is absent. -/
def c3_resp : HttpResponse :=
  ⟨200, "application/json", some (JVal.jobj []), ⟨none, none⟩⟩

/-- An AppleTV playable carrying iTunes data with external id "123" and one
offer at the given URL. -/
def c4_playable (url : String) : JVal :=
  JVal.jobj [("isItunes", JVal.jbool true), ("externalId", JVal.jstr "123"),
    ("itunesMediaApiData", JVal.jobj [("offers",
      JVal.jarr [JVal.jobj [("hlsUrl", JVal.jstr url)]])])]

/-- An AppleTV response with two playables sharing the external id "123". -/
def c4_input : JVal :=
  JVal.jobj [("data", JVal.jobj [
    ("content", JVal.jobj [("title", JVal.jstr "Movie"), ("releaseDate", JVal.jnum 0)]),
    ("playables", JVal.jobj [("p1", c4_playable "u1"), ("p2", c4_playable "u2")])])]

/-- A subtitle track with language code "en" and display name "English". -/
def c5_track : MediaPlaylist :=
  ⟨"SUBTITLES", "subtitles_ak", "en", "English", "NO", none, "u"⟩

/-- A qualifying iTunes offer with a single asset at URL "u". -/
def c6_offer : JVal :=
  JVal.jobj [("type", JVal.jstr "buy"),
    ("assets", JVal.jarr [JVal.jobj [("hlsUrl", JVal.jstr "u")]])]

/-- A well-formed iTunes JSON response with one buy offer. -/
def c6_itunes_jd : JVal :=
  JVal.jobj [
    ("pageData", JVal.jobj [("id", JVal.jstr "42")]),
    ("storePlatformData", JVal.jobj [("product-dv", JVal.jobj [("results",
      JVal.jobj [("42", JVal.jobj [
        ("nameRaw", JVal.jstr "Movie"),
        ("releaseDate", JVal.jstr "2021-07-09"),
        ("offers", JVal.jarr [c6_offer])])])])])]

/-- A well-formed AppleTV JSON response with one playable. -/
def c6_appletv_jd : JVal :=
  JVal.jobj [("data", JVal.jobj [
    ("content", JVal.jobj [("title", JVal.jstr "Movie"), ("releaseDate", JVal.jnum 0)]),
    ("playables", JVal.jobj [("p1", c4_playable "u")])])]

/-- The two assets of `c10_item`, in order. -/
def c10_assets : List JVal :=
  [JVal.jobj [("hlsUrl", JVal.jstr "u0")], JVal.jobj [("hlsUrl", JVal.jstr "u1")]]

/-- An offer item for the iTunes HTML path, with two well-shaped assets. -/
def c10_item : JVal :=
  JVal.jobj [("type", JVal.jstr "offer"),
    ("attributes", JVal.jobj [("assets", JVal.jarr c10_assets)])]
/-! ## Lemmas: slot writes and gather order independence -/

theorem write_slot_length (slots : List (Option String)) (i : Nat) (v : String) :
    (write_slot slots i v).length = slots.length := by
  induction slots generalizing i with
  | nil => rfl
  | cons x rest ih =>
    cases i with
    | zero => rfl
    | succ n => simp [write_slot, ih]

theorem write_slot_get_ne (slots : List (Option String)) (i j : Nat) (v : String)
    (h : j ≠ i) : (write_slot slots i v).get? j = slots.get? j := by
  induction slots generalizing i j with
  | nil => rfl
  | cons x rest ih =>
    cases i with
    | zero =>
      cases j with
      | zero => exact absurd rfl h
      | succ m => rfl
    | succ n =>
      cases j with
      | zero => rfl
      | succ m => simpa [write_slot] using ih n m (fun hc => h (by omega))

theorem write_slot_get_eq (slots : List (Option String)) (i : Nat) (v : String)
    (h : i < slots.length) : (write_slot slots i v).get? i = some (some v) := by
  induction slots generalizing i with
  | nil => simp at h
  | cons x rest ih =>
    cases i with
    | zero => rfl
    | succ n => simpa [write_slot] using ih n (by simpa using h)

theorem completions_length (texts : List String) (order : List Nat)
    (slots : List (Option String)) :
    (order.foldl (fun s i => write_slot s i (texts.getD i "")) slots).length = slots.length := by
  induction order generalizing slots with
  | nil => rfl
  | cons j rest ih => simpa [List.foldl_cons, write_slot_length] using
      (ih (write_slot slots j (texts.getD j ""))).trans (write_slot_length slots j _)

theorem completions_get_not_mem (texts : List String) (order : List Nat)
    (slots : List (Option String)) (i : Nat) (h : i ∉ order) :
    (order.foldl (fun s k => write_slot s k (texts.getD k "")) slots).get? i = slots.get? i := by
  induction order generalizing slots with
  | nil => rfl
  | cons j rest ih =>
    have hji : i ≠ j := fun hc => h (by simp [hc])
    have hrest : i ∉ rest := fun hc => h (by simp [hc])
    simpa [List.foldl_cons] using
      (ih (write_slot slots j (texts.getD j "")) hrest).trans (write_slot_get_ne slots j i _ hji)

theorem completions_get_mem (texts : List String) (order : List Nat)
    (slots : List (Option String)) (i : Nat) (hmem : i ∈ order) (hlt : i < slots.length) :
    (order.foldl (fun s k => write_slot s k (texts.getD k "")) slots).get? i
      = some (some (texts.getD i "")) := by
  induction order generalizing slots with
  | nil => simp at hmem
  | cons j rest ih =>
    by_cases hr : i ∈ rest
    · simpa [List.foldl_cons] using ih (write_slot slots j (texts.getD j "")) hr
        (by simpa [write_slot_length] using hlt)
    · have hij : i = j := by
        rcases List.mem_cons.mp hmem with h | h
        · exact h
        · exact absurd h hr
      subst hij
      simpa [List.foldl_cons] using
        (completions_get_not_mem texts rest (write_slot slots i (texts.getD i "")) i hr).trans
          (write_slot_get_eq slots i _ hlt)

theorem gather_results_complete (texts : List String) (order : List Nat)
    (h : ∀ i, i < texts.length → i ∈ order) :
    gather_results texts order = texts := by
  apply List.ext_get?
  intro i
  rw [gather_results, List.get?_map]
  by_cases hi : i < texts.length
  · have hslot : (run_completions texts order).get? i = some (some (texts.getD i "")) := by
      simpa [run_completions] using
        completions_get_mem texts order (List.replicate texts.length none) i (h i hi)
          (by simpa using hi)
    rw [hslot, List.get?_eq_get hi, List.getD_eq_get texts "" hi]
    rfl
  · have hlen : (run_completions texts order).length = texts.length := by
      simpa [run_completions] using
        completions_length texts order (List.replicate texts.length none)
    rw [List.get?_eq_none.mpr (show (run_completions texts order).length ≤ i by omega),
      List.get?_eq_none.mpr (show texts.length ≤ i by omega)]
    rfl

/-- C1: for every track playlist, the segment texts handed to the merger are
in the original segment-list order no matter in which order the concurrent
downloads complete: any two complete completion orderings give the same
gathered list (the original one) and hence an identical merged document. -/
theorem gather_order_independence {Cue : Type} (loads : String → List Cue)
    (texts : List String) (o₁ o₂ : List Nat)
    (h₁ : ∀ i, i < texts.length → i ∈ o₁)
    (h₂ : ∀ i, i < texts.length → i ∈ o₂) :
    gather_results texts o₁ = texts ∧
    gather_results texts o₁ = gather_results texts o₂ ∧
    merge_segments loads (gather_results texts o₁)
      = merge_segments loads (gather_results texts o₂) := by
  have e₁ := gather_results_complete texts o₁ h₁
  have e₂ := gather_results_complete texts o₂ h₂
  exact ⟨e₁, e₁.trans e₂.symm, by rw [e₁, e₂]⟩

/-- Witness for C1 at a concrete three-segment playlist and two different
completion orders. -/
theorem gather_order_independence_witness :
    gather_results ["a", "b", "c"] [2, 0, 1] = ["a", "b", "c"] ∧
    gather_results ["a", "b", "c"] [2, 0, 1] = gather_results ["a", "b", "c"] [0, 1, 2] ∧
    merge_segments (fun s => [s]) (gather_results ["a", "b", "c"] [2, 0, 1])
      = merge_segments (fun s => [s]) (gather_results ["a", "b", "c"] [0, 1, 2]) :=
  gather_order_independence (fun s => [s]) ["a", "b", "c"] [2, 0, 1] [0, 1, 2]
    (by decide) (by decide)

/-- C2 (amended): a batch in which at least one segment fetch raises — a
transport error or a UTF-8 decode failure — makes `download_subtitles` fail
as a whole: the returned outcome is the propagated exception and the output
file holds no serialized cue content (the file is truncated by `open` and
`f.write` is never reached). -/
theorem download_fails_whole_batch {Cue : Type} (loads : String → List Cue)
    (dumps : List Cue → String) (path : String)
    (net : List SegFetch) (order : List Nat)
    (hcomplete : ∀ i, i < net.length → i ∈ order)
    (i : Nat) (hi : i < net.length) (e : FetchErr)
    (hfail : download_segment (net.getD i SegFetch.transportError) = Except.error e) :
    except_is_ok (download_subtitles loads dumps path net order).outcome = false ∧
    (download_subtitles loads dumps path net order).fileContent = "" := by
  have hmap : (net.map download_segment).getD i (Except.ok "")
      = download_segment (net.getD i SegFetch.transportError) := by
    rw [List.getD_eq_get _ _ (by simpa using hi), List.getD_eq_get _ _ hi, List.get_map]
  have hne : first_failure (net.map download_segment) order ≠ none := by
    intro hnone
    have hall := List.findSome?_eq_none_iff.mp hnone i (hcomplete i hi)
    rw [hmap, hfail] at hall
    simp at hall
  rcases hff : first_failure (net.map download_segment) order with _ | e'
  · exact absurd hff hne
  · constructor <;> simp [download_subtitles, gather_except, hff, except_is_ok]

/-- Witness for the amended C2: a two-segment batch whose second fetch
raises a transport error; the call errors and the file content stays empty. -/
theorem download_fails_whole_batch_witness :
    except_is_ok (download_subtitles (fun s => [s]) (fun l => String.join l) "out"
      [SegFetch.response 200 (some "a"), SegFetch.transportError] [1, 0]).outcome = false ∧
    (download_subtitles (fun s => [s]) (fun l => String.join l) "out"
      [SegFetch.response 200 (some "a"), SegFetch.transportError] [1, 0]).fileContent = "" :=
  download_fails_whole_batch (fun s => [s]) (fun l => String.join l) "out"
    [SegFetch.response 200 (some "a"), SegFetch.transportError] [1, 0]
    (by decide) 1 (by decide) FetchErr.transport rfl

/-- C2 (counterexample): a segment answered with HTTP status 404 and a
decodable body is not a batch failure for the code: the session never
raises on status and `_download_segment` never checks it, so the download
succeeds and the error page's body is merged and written to the output
file. -/
theorem bad_status_not_a_batch_failure :
    (download_subtitles (fun s => [s]) (fun l => String.join l) "out"
      [SegFetch.response 200 (some "a"), SegFetch.response 404 (some "oops")]
      [0, 1]).outcome = Except.ok "out" ∧
    (download_subtitles (fun s => [s]) (fun l => String.join l) "out"
      [SegFetch.response 200 (some "a"), SegFetch.response 404 (some "oops")]
      [0, 1]).fileContent = "aoops" ∧
    ¬ (download_subtitles (fun s => [s]) (fun l => String.join l) "out"
      [SegFetch.response 200 (some "a"), SegFetch.response 404 (some "oops")]
      [0, 1]).fileContent = "" :=
  ⟨rfl, rfl, by decide⟩

/-! ## Lemmas: the validation scans never raise on well-formed input,
and load each candidate at most once, in order -/

theorem asset_getKey_of_wf (a : JVal) (h : asset_well_formed a = true) :
    (a.getKey "hlsUrl").bind JVal.asStr = Except.ok (asset_url a) := by
  cases a with
  | jnull => simp [asset_well_formed] at h
  | jbool b => simp [asset_well_formed] at h
  | jnum n => simp [asset_well_formed] at h
  | jstr s => simp [asset_well_formed] at h
  | jarr xs => simp [asset_well_formed] at h
  | jobj fields =>
    simp only [asset_well_formed] at h
    cases hl : fields.lookup "hlsUrl" with
    | none => rw [hl] at h; simp at h
    | some v =>
      rw [hl] at h
      cases v with
      | jstr s => simp [JVal.getKey, hl, JVal.asStr, asset_url, Except.bind]
      | jnull => simp at h
      | jbool b => simp at h
      | jnum n => simp at h
      | jarr xs => simp at h
      | jobj fs => simp at h

theorem scan_assets_wf (load : Oracle) (assets : List JVal)
    (h : assets.all asset_well_formed = true) :
    ((∀ u, load u ≠ LoadResult.urlError) →
      ∃ res, (scan_assets load assets).1 = Except.ok res) ∧
    List.Sublist (scan_assets load assets).2 (assets.map asset_url) := by
  induction assets with
  | nil => exact ⟨fun _ => ⟨none, rfl⟩, by simp [scan_assets]⟩
  | cons a rest ih =>
    rw [List.all_cons, Bool.and_eq_true] at h
    obtain ⟨ha, hrest⟩ := h
    obtain ⟨hok, hsub⟩ := ih hrest
    rcases hsa : scan_assets load rest with ⟨r, tr⟩
    rw [hsa] at hok hsub
    cases hld : load (asset_url a) with
    | ok =>
      have hstep : scan_assets load (a :: rest)
          = (Except.ok (some (asset_url a)), [asset_url a]) := by
        simp [scan_assets, asset_getKey_of_wf a ha, hld]
      rw [hstep, List.map_cons]
      exact ⟨fun _ => ⟨some (asset_url a), rfl⟩,
        List.Sublist.cons₂ _ (List.nil_sublist _)⟩
    | urlError =>
      have hstep : scan_assets load (a :: rest)
          = (Except.error Err.urlError, [asset_url a]) := by
        simp [scan_assets, asset_getKey_of_wf a ha, hld]
      rw [hstep, List.map_cons]
      exact ⟨fun hnu => absurd hld (hnu _),
        List.Sublist.cons₂ _ (List.nil_sublist _)⟩
    | valueError =>
      have hstep : scan_assets load (a :: rest) = (r, asset_url a :: tr) := by
        simp [scan_assets, asset_getKey_of_wf a ha, hld, hsa]
      rw [hstep, List.map_cons]
      exact ⟨fun hnu => hok hnu, List.Sublist.cons₂ _ hsub⟩
    | httpError =>
      have hstep : scan_assets load (a :: rest) = (r, asset_url a :: tr) := by
        simp [scan_assets, asset_getKey_of_wf a ha, hld, hsa]
      rw [hstep, List.map_cons]
      exact ⟨fun hnu => hok hnu, List.Sublist.cons₂ _ hsub⟩

theorem scan_assets_allfail (load : Oracle) (assets : List JVal)
    (h : assets.all asset_well_formed = true)
    (hcaught : ∀ u, load u = LoadResult.valueError ∨ load u = LoadResult.httpError) :
    (scan_assets load assets).1 = Except.ok none := by
  induction assets with
  | nil => rfl
  | cons a rest ih =>
    rw [List.all_cons, Bool.and_eq_true] at h
    obtain ⟨ha, hrest⟩ := h
    rcases hsa : scan_assets load rest with ⟨r, tr⟩
    have hres := ih hrest
    rw [hsa] at hres
    simp only at hres
    cases hld : load (asset_url a) with
    | ok => rcases hcaught (asset_url a) with hc | hc <;> rw [hld] at hc <;> simp at hc
    | urlError => rcases hcaught (asset_url a) with hc | hc <;> rw [hld] at hc <;> simp at hc
    | valueError => simp [scan_assets, asset_getKey_of_wf a ha, hld, hsa, hres]
    | httpError => simp [scan_assets, asset_getKey_of_wf a ha, hld, hsa, hres]

theorem itunes_candidate_urls_cons (o : JVal) (rest : List JVal) :
    itunes_candidate_urls (o :: rest) = offer_candidate_urls o ++ itunes_candidate_urls rest := rfl

theorem appletv_candidate_urls_cons (p : JVal) (rest : List JVal) :
    appletv_candidate_urls (p :: rest)
      = playable_candidate_urls p ++ appletv_candidate_urls rest := rfl

theorem scan_offers_wf (load : Oracle) (offers : List JVal)
    (h : offers.all offer_well_formed = true) :
    ((∀ u, load u ≠ LoadResult.urlError) →
      ∃ res, (scan_offers load offers).1 = Except.ok res) ∧
    List.Sublist (scan_offers load offers).2 (itunes_candidate_urls offers) := by
  induction offers with
  | nil => exact ⟨fun _ => ⟨none, rfl⟩, by simp [scan_offers, itunes_candidate_urls]⟩
  | cons o rest ih =>
    rw [List.all_cons, Bool.and_eq_true] at h
    obtain ⟨ho, hrest⟩ := h
    cases o with
    | jnull => simp [offer_well_formed] at ho
    | jbool b => simp [offer_well_formed] at ho
    | jnum n => simp [offer_well_formed] at ho
    | jstr s => simp [offer_well_formed] at ho
    | jarr xs => simp [offer_well_formed] at ho
    | jobj fields =>
      cases hty : fields.lookup "type" with
      | none =>
        have hstep : scan_offers load (JVal.jobj fields :: rest) = scan_offers load rest := by
          simp [scan_offers, JVal.getOpt, hty]
        have hcand : offer_candidate_urls (JVal.jobj fields) = [] := by
          simp [offer_candidate_urls, hty]
        rw [hstep, itunes_candidate_urls_cons, hcand]
        exact ⟨(ih hrest).1, by simpa using (ih hrest).2⟩
      | some v =>
        cases v with
        | jnull =>
          have hstep : scan_offers load (JVal.jobj fields :: rest) = scan_offers load rest := by
            simp [scan_offers, JVal.getOpt, hty]
          have hcand : offer_candidate_urls (JVal.jobj fields) = [] := by
            simp [offer_candidate_urls, hty]
          rw [hstep, itunes_candidate_urls_cons, hcand]
          exact ⟨(ih hrest).1, by simpa using (ih hrest).2⟩
        | jbool b =>
          have hstep : scan_offers load (JVal.jobj fields :: rest) = scan_offers load rest := by
            simp [scan_offers, JVal.getOpt, hty]
          have hcand : offer_candidate_urls (JVal.jobj fields) = [] := by
            simp [offer_candidate_urls, hty]
          rw [hstep, itunes_candidate_urls_cons, hcand]
          exact ⟨(ih hrest).1, by simpa using (ih hrest).2⟩
        | jnum n =>
          have hstep : scan_offers load (JVal.jobj fields :: rest) = scan_offers load rest := by
            simp [scan_offers, JVal.getOpt, hty]
          have hcand : offer_candidate_urls (JVal.jobj fields) = [] := by
            simp [offer_candidate_urls, hty]
          rw [hstep, itunes_candidate_urls_cons, hcand]
          exact ⟨(ih hrest).1, by simpa using (ih hrest).2⟩
        | jarr xs =>
          have hstep : scan_offers load (JVal.jobj fields :: rest) = scan_offers load rest := by
            simp [scan_offers, JVal.getOpt, hty]
          have hcand : offer_candidate_urls (JVal.jobj fields) = [] := by
            simp [offer_candidate_urls, hty]
          rw [hstep, itunes_candidate_urls_cons, hcand]
          exact ⟨(ih hrest).1, by simpa using (ih hrest).2⟩
        | jobj fs =>
          have hstep : scan_offers load (JVal.jobj fields :: rest) = scan_offers load rest := by
            simp [scan_offers, JVal.getOpt, hty]
          have hcand : offer_candidate_urls (JVal.jobj fields) = [] := by
            simp [offer_candidate_urls, hty]
          rw [hstep, itunes_candidate_urls_cons, hcand]
          exact ⟨(ih hrest).1, by simpa using (ih hrest).2⟩
        | jstr t =>
          by_cases hbt : t = "buy" ∨ t = "rent"
          · cases has : fields.lookup "assets" with
            | none =>
                have hstep : scan_offers load (JVal.jobj fields :: rest) = scan_offers load rest := by
                  simp [scan_offers, JVal.getOpt, hty, hbt, has]
                have hcand : offer_candidate_urls (JVal.jobj fields) = [] := by
                  simp [offer_candidate_urls, hty, hbt, has]
                rw [hstep, itunes_candidate_urls_cons, hcand]
                exact ⟨(ih hrest).1, by simpa using (ih hrest).2⟩
            | some av =>
              cases av with
              | jarr assets =>
                simp only [offer_well_formed] at ho
                rw [hty] at ho
                simp only [if_pos hbt] at ho
                rw [has] at ho
                cases hemp : assets.isEmpty with
                | true =>
                  have hstep : scan_offers load (JVal.jobj fields :: rest)
                      = scan_offers load rest := by
                    simp [scan_offers, JVal.getOpt, hty, hbt, has, hemp]
                  have hassets : assets = [] := List.isEmpty_iff.mp hemp
                  have hcand : offer_candidate_urls (JVal.jobj fields) = [] := by
                    simp [offer_candidate_urls, hty, hbt, has, hassets]
                  rw [hstep, itunes_candidate_urls_cons, hcand]
                  exact ⟨(ih hrest).1, by simpa using (ih hrest).2⟩
                | false =>
                  have hcand : offer_candidate_urls (JVal.jobj fields)
                      = assets.map asset_url := by
                    simp [offer_candidate_urls, hty, hbt, has]
                  rcases hsa : scan_assets load assets with ⟨ra, tra⟩
                  obtain ⟨hoka, hsuba⟩ := scan_assets_wf load assets ho
                  rw [hsa] at hoka hsuba
                  cases ra with
                  | error e =>
                    have hstep : scan_offers load (JVal.jobj fields :: rest)
                        = (Except.error e, tra) := by
                      simp [scan_offers, JVal.getOpt, hty, hbt, has, hemp, hsa]
                    rw [hstep, itunes_candidate_urls_cons, hcand]
                    constructor
                    · intro hnu
                      obtain ⟨res', hres'⟩ := hoka hnu
                      simp at hres'
                    · exact hsuba.trans (List.sublist_append_left _ _)
                  | ok resa =>
                    cases resa with
                    | some url =>
                      have hstep : scan_offers load (JVal.jobj fields :: rest)
                          = (Except.ok (some url), tra) := by
                        simp [scan_offers, JVal.getOpt, hty, hbt, has, hemp, hsa]
                      rw [hstep, itunes_candidate_urls_cons, hcand]
                      exact ⟨fun _ => ⟨some url, rfl⟩,
                        hsuba.trans (List.sublist_append_left _ _)⟩
                    | none =>
                      rcases hso : scan_offers load rest with ⟨r, tr⟩
                      obtain ⟨hok, hsub⟩ := ih hrest
                      rw [hso] at hok hsub
                      have hstep : scan_offers load (JVal.jobj fields :: rest)
                          = (r, tra ++ tr) := by
                        simp [scan_offers, JVal.getOpt, hty, hbt, has, hemp, hsa, hso]
                      rw [hstep, itunes_candidate_urls_cons, hcand]
                      exact ⟨fun hnu => hok hnu, List.Sublist.append hsuba hsub⟩
              | jnull =>
                have hstep : scan_offers load (JVal.jobj fields :: rest) = scan_offers load rest := by
                  simp [scan_offers, JVal.getOpt, hty, hbt, has]
                have hcand : offer_candidate_urls (JVal.jobj fields) = [] := by
                  simp [offer_candidate_urls, hty, hbt, has]
                rw [hstep, itunes_candidate_urls_cons, hcand]
                exact ⟨(ih hrest).1, by simpa using (ih hrest).2⟩
              | jbool b =>
                have hstep : scan_offers load (JVal.jobj fields :: rest) = scan_offers load rest := by
                  simp [scan_offers, JVal.getOpt, hty, hbt, has]
                have hcand : offer_candidate_urls (JVal.jobj fields) = [] := by
                  simp [offer_candidate_urls, hty, hbt, has]
                rw [hstep, itunes_candidate_urls_cons, hcand]
                exact ⟨(ih hrest).1, by simpa using (ih hrest).2⟩
              | jnum n =>
                have hstep : scan_offers load (JVal.jobj fields :: rest) = scan_offers load rest := by
                  simp [scan_offers, JVal.getOpt, hty, hbt, has]
                have hcand : offer_candidate_urls (JVal.jobj fields) = [] := by
                  simp [offer_candidate_urls, hty, hbt, has]
                rw [hstep, itunes_candidate_urls_cons, hcand]
                exact ⟨(ih hrest).1, by simpa using (ih hrest).2⟩
              | jstr s =>
                have hstep : scan_offers load (JVal.jobj fields :: rest) = scan_offers load rest := by
                  simp [scan_offers, JVal.getOpt, hty, hbt, has]
                have hcand : offer_candidate_urls (JVal.jobj fields) = [] := by
                  simp [offer_candidate_urls, hty, hbt, has]
                rw [hstep, itunes_candidate_urls_cons, hcand]
                exact ⟨(ih hrest).1, by simpa using (ih hrest).2⟩
              | jobj fs =>
                have hstep : scan_offers load (JVal.jobj fields :: rest) = scan_offers load rest := by
                  simp [scan_offers, JVal.getOpt, hty, hbt, has]
                have hcand : offer_candidate_urls (JVal.jobj fields) = [] := by
                  simp [offer_candidate_urls, hty, hbt, has]
                rw [hstep, itunes_candidate_urls_cons, hcand]
                exact ⟨(ih hrest).1, by simpa using (ih hrest).2⟩
          ·
            have hstep : scan_offers load (JVal.jobj fields :: rest) = scan_offers load rest := by
              simp [scan_offers, JVal.getOpt, hty, hbt]
            have hcand : offer_candidate_urls (JVal.jobj fields) = [] := by
              simp [offer_candidate_urls, hty, hbt]
            rw [hstep, itunes_candidate_urls_cons, hcand]
            exact ⟨(ih hrest).1, by simpa using (ih hrest).2⟩

theorem scan_offers_allfail (load : Oracle) (offers : List JVal)
    (h : offers.all offer_well_formed = true)
    (hcaught : ∀ u, load u = LoadResult.valueError ∨ load u = LoadResult.httpError) :
    (scan_offers load offers).1 = Except.ok none := by
  induction offers with
  | nil => rfl
  | cons o rest ih =>
    rw [List.all_cons, Bool.and_eq_true] at h
    obtain ⟨ho, hrest⟩ := h
    have hihr := ih hrest
    cases o with
    | jnull => simp [offer_well_formed] at ho
    | jbool b => simp [offer_well_formed] at ho
    | jnum n => simp [offer_well_formed] at ho
    | jstr s => simp [offer_well_formed] at ho
    | jarr xs => simp [offer_well_formed] at ho
    | jobj fields =>
      cases hty : fields.lookup "type" with
      | none =>
        rw [show scan_offers load (JVal.jobj fields :: rest) = scan_offers load rest from by
          simp [scan_offers, JVal.getOpt, hty]]
        exact hihr
      | some v =>
        cases v with
        | jnull =>
          rw [show scan_offers load (JVal.jobj fields :: rest) = scan_offers load rest from by
            simp [scan_offers, JVal.getOpt, hty]]
          exact hihr
        | jbool b =>
          rw [show scan_offers load (JVal.jobj fields :: rest) = scan_offers load rest from by
            simp [scan_offers, JVal.getOpt, hty]]
          exact hihr
        | jnum n =>
          rw [show scan_offers load (JVal.jobj fields :: rest) = scan_offers load rest from by
            simp [scan_offers, JVal.getOpt, hty]]
          exact hihr
        | jarr xs =>
          rw [show scan_offers load (JVal.jobj fields :: rest) = scan_offers load rest from by
            simp [scan_offers, JVal.getOpt, hty]]
          exact hihr
        | jobj fs =>
          rw [show scan_offers load (JVal.jobj fields :: rest) = scan_offers load rest from by
            simp [scan_offers, JVal.getOpt, hty]]
          exact hihr
        | jstr t =>
          by_cases hbt : t = "buy" ∨ t = "rent"
          · cases has : fields.lookup "assets" with
            | none =>
              rw [show scan_offers load (JVal.jobj fields :: rest) = scan_offers load rest from by
                simp [scan_offers, JVal.getOpt, hty, hbt, has]]
              exact hihr
            | some av =>
              cases av with
              | jarr assets =>
                simp only [offer_well_formed] at ho
                rw [hty] at ho
                simp only [if_pos hbt] at ho
                rw [has] at ho
                cases hemp : assets.isEmpty with
                | true =>
                  rw [show scan_offers load (JVal.jobj fields :: rest)
                      = scan_offers load rest from by
                    simp [scan_offers, JVal.getOpt, hty, hbt, has, hemp]]
                  exact hihr
                | false =>
                  rcases hsa : scan_assets load assets with ⟨ra, tra⟩
                  have hnone := scan_assets_allfail load assets ho hcaught
                  rw [hsa] at hnone
                  simp only at hnone
                  subst hnone
                  rcases hso : scan_offers load rest with ⟨r, tr⟩
                  rw [hso] at hihr
                  simp only at hihr
                  rw [show scan_offers load (JVal.jobj fields :: rest) = (r, tra ++ tr) from by
                    simp [scan_offers, JVal.getOpt, hty, hbt, has, hemp, hsa, hso]]
                  exact hihr
              | jnull =>
                rw [show scan_offers load (JVal.jobj fields :: rest)
                    = scan_offers load rest from by
                  simp [scan_offers, JVal.getOpt, hty, hbt, has]]
                exact hihr
              | jbool b =>
                rw [show scan_offers load (JVal.jobj fields :: rest)
                    = scan_offers load rest from by
                  simp [scan_offers, JVal.getOpt, hty, hbt, has]]
                exact hihr
              | jnum n =>
                rw [show scan_offers load (JVal.jobj fields :: rest)
                    = scan_offers load rest from by
                  simp [scan_offers, JVal.getOpt, hty, hbt, has]]
                exact hihr
              | jstr s =>
                rw [show scan_offers load (JVal.jobj fields :: rest)
                    = scan_offers load rest from by
                  simp [scan_offers, JVal.getOpt, hty, hbt, has]]
                exact hihr
              | jobj fs =>
                rw [show scan_offers load (JVal.jobj fields :: rest)
                    = scan_offers load rest from by
                  simp [scan_offers, JVal.getOpt, hty, hbt, has]]
                exact hihr
          · rw [show scan_offers load (JVal.jobj fields :: rest) = scan_offers load rest from by
              simp [scan_offers, JVal.getOpt, hty, hbt]]
            exact hihr

theorem scan_playables_wf (load : Oracle) (playables : List JVal) (ids_set : List String)
    (h : playables.all playable_well_formed = true) :
    ((∀ u, load u ≠ LoadResult.urlError) →
      ∃ ps, (scan_playables load playables ids_set).1 = Except.ok ps) ∧
    List.Sublist (scan_playables load playables ids_set).2
      (appletv_candidate_urls playables) := by
  induction playables with
  | nil => exact ⟨fun _ => ⟨[], rfl⟩, by simp [scan_playables, appletv_candidate_urls]⟩
  | cons p rest ih =>
    rw [List.all_cons, Bool.and_eq_true] at h
    obtain ⟨hp, hrest⟩ := h
    cases p with
    | jnull => simp [playable_well_formed] at hp
    | jbool b => simp [playable_well_formed] at hp
    | jnum n => simp [playable_well_formed] at hp
    | jstr s => simp [playable_well_formed] at hp
    | jarr xs => simp [playable_well_formed] at hp
    | jobj fields =>
      cases hii : fields.lookup "isItunes" with
      | none =>
        simp only [playable_well_formed] at hp
        rw [hii] at hp
        simp at hp
      | some isIt =>
        simp only [playable_well_formed] at hp
        rw [hii] at hp
        cases htr : isIt.truthy with
        | false =>
          have hstep : scan_playables load (JVal.jobj fields :: rest) ids_set
              = scan_playables load rest ids_set := by
            simp [scan_playables, JVal.getKey, hii, htr]
          have hcand : playable_candidate_urls (JVal.jobj fields) = [] := by
            simp [playable_candidate_urls, hii, htr]
          rw [hstep, appletv_candidate_urls_cons, hcand]
          exact ⟨(ih hrest).1, by simpa using (ih hrest).2⟩
        | true =>
          simp only [htr, if_true] at hp
          cases hei : fields.lookup "externalId" with
          | none => rw [hei] at hp; simp at hp
          | some eiv =>
            rw [hei] at hp
            cases eiv with
            | jnull => simp at hp
            | jbool b => simp at hp
            | jnum n => simp at hp
            | jarr xs => simp at hp
            | jobj fs => simp at hp
            | jstr id =>
              cases hmd : fields.lookup "itunesMediaApiData" with
              | none => simp [hmd] at hp
              | some mdv =>
                simp only [hmd] at hp
                cases mdv with
                | jnull => simp at hp
                | jbool b => simp at hp
                | jnum n => simp at hp
                | jstr s => simp at hp
                | jarr xs => simp at hp
                | jobj mfields =>
                  cases hof : mfields.lookup "offers" with
                  | none => simp [hof] at hp
                  | some ofv =>
                    simp only [hof] at hp
                    cases ofv with
                    | jnull => simp at hp
                    | jbool b => simp at hp
                    | jnum n => simp at hp
                    | jstr s => simp at hp
                    | jobj fs => simp at hp
                    | jarr offers =>
                      have hcand : playable_candidate_urls (JVal.jobj fields)
                          = offers.map asset_url := by
                        simp [playable_candidate_urls, hii, htr, hmd, hof]
                      by_cases hmem : id ∈ ids_set
                      · have hstep : scan_playables load (JVal.jobj fields :: rest) ids_set
                            = scan_playables load rest ids_set := by
                          simp [scan_playables, JVal.getKey, hii, htr, hei, JVal.asStr,
                            Except.bind, hmem]
                        rw [hstep, appletv_candidate_urls_cons, hcand]
                        exact ⟨(ih hrest).1,
                          ((ih hrest).2).trans (List.sublist_append_right _ _)⟩
                      · rcases hsa : scan_assets load offers with ⟨ra, tra⟩
                        obtain ⟨hoka, hsuba⟩ := scan_assets_wf load offers hp
                        rw [hsa] at hoka hsuba
                        cases ra with
                        | error e =>
                          have hstep : scan_playables load (JVal.jobj fields :: rest) ids_set
                              = (Except.error e, tra) := by
                            simp [scan_playables, JVal.getKey, hii, htr, hei, JVal.asStr,
                              Except.bind, hmem, hmd, hof, hsa]
                          rw [hstep, appletv_candidate_urls_cons, hcand]
                          constructor
                          · intro hnu
                            obtain ⟨res', hres'⟩ := hoka hnu
                            simp at hres'
                          · exact hsuba.trans (List.sublist_append_left _ _)
                        | ok resa =>
                          rcases hsp : scan_playables load rest ids_set with ⟨r, tr⟩
                          obtain ⟨hok, hsub⟩ := ih hrest
                          rw [hsp] at hok hsub
                          cases resa with
                          | some url =>
                            have hstep : scan_playables load (JVal.jobj fields :: rest) ids_set
                                = (r.map (fun ps => ⟨id, url⟩ :: ps), tra ++ tr) := by
                              cases r with
                              | error e =>
                                simp [scan_playables, JVal.getKey, hii, htr, hei, JVal.asStr,
                                  Except.bind, hmem, hmd, hof, hsa, hsp, Except.map]
                              | ok ps =>
                                simp [scan_playables, JVal.getKey, hii, htr, hei, JVal.asStr,
                                  Except.bind, hmem, hmd, hof, hsa, hsp, Except.map]
                            rw [hstep, appletv_candidate_urls_cons, hcand]
                            constructor
                            · intro hnu
                              obtain ⟨ps, hps⟩ := hok hnu
                              simp only at hps
                              exact ⟨⟨id, url⟩ :: ps, by rw [hps]; rfl⟩
                            · exact List.Sublist.append hsuba hsub
                          | none =>
                            have hstep : scan_playables load (JVal.jobj fields :: rest) ids_set
                                = (r, tra ++ tr) := by
                              simp [scan_playables, JVal.getKey, hii, htr, hei, JVal.asStr,
                                Except.bind, hmem, hmd, hof, hsa, hsp]
                            rw [hstep, appletv_candidate_urls_cons, hcand]
                            exact ⟨fun hnu => hok hnu, List.Sublist.append hsuba hsub⟩

theorem scan_playables_allfail (load : Oracle) (playables : List JVal) (ids_set : List String)
    (h : playables.all playable_well_formed = true)
    (hcaught : ∀ u, load u = LoadResult.valueError ∨ load u = LoadResult.httpError) :
    (scan_playables load playables ids_set).1 = Except.ok [] := by
  induction playables with
  | nil => rfl
  | cons p rest ih =>
    rw [List.all_cons, Bool.and_eq_true] at h
    obtain ⟨hp, hrest⟩ := h
    have hihr := ih hrest
    cases p with
    | jnull => simp [playable_well_formed] at hp
    | jbool b => simp [playable_well_formed] at hp
    | jnum n => simp [playable_well_formed] at hp
    | jstr s => simp [playable_well_formed] at hp
    | jarr xs => simp [playable_well_formed] at hp
    | jobj fields =>
      cases hii : fields.lookup "isItunes" with
      | none =>
        simp only [playable_well_formed] at hp
        rw [hii] at hp
        simp at hp
      | some isIt =>
        simp only [playable_well_formed] at hp
        rw [hii] at hp
        cases htr : isIt.truthy with
        | false =>
          rw [show scan_playables load (JVal.jobj fields :: rest) ids_set
              = scan_playables load rest ids_set from by
            simp [scan_playables, JVal.getKey, hii, htr]]
          exact hihr
        | true =>
          simp only [htr, if_true] at hp
          cases hei : fields.lookup "externalId" with
          | none => rw [hei] at hp; simp at hp
          | some eiv =>
            rw [hei] at hp
            cases eiv with
            | jnull => simp at hp
            | jbool b => simp at hp
            | jnum n => simp at hp
            | jarr xs => simp at hp
            | jobj fs => simp at hp
            | jstr id =>
              cases hmd : fields.lookup "itunesMediaApiData" with
              | none => rw [hmd] at hp; simp at hp
              | some mdv =>
                simp only [hmd] at hp
                cases mdv with
                | jnull => simp at hp
                | jbool b => simp at hp
                | jnum n => simp at hp
                | jstr s => simp at hp
                | jarr xs => simp at hp
                | jobj mfields =>
                  cases hof : mfields.lookup "offers" with
                  | none => simp [hof] at hp
                  | some ofv =>
                    simp only [hof] at hp
                    cases ofv with
                    | jnull => simp at hp
                    | jbool b => simp at hp
                    | jnum n => simp at hp
                    | jstr s => simp at hp
                    | jobj fs => simp at hp
                    | jarr offers =>
                      by_cases hmem : id ∈ ids_set
                      · rw [show scan_playables load (JVal.jobj fields :: rest) ids_set
                            = scan_playables load rest ids_set from by
                          simp [scan_playables, JVal.getKey, hii, htr, hei, JVal.asStr,
                            Except.bind, hmem]]
                        exact hihr
                      · rcases hsa : scan_assets load offers with ⟨ra, tra⟩
                        have hnone := scan_assets_allfail load offers hp hcaught
                        rw [hsa] at hnone
                        simp only at hnone
                        subst hnone
                        rcases hsp : scan_playables load rest ids_set with ⟨r, tr⟩
                        rw [hsp] at hihr
                        simp only at hihr
                        rw [show scan_playables load (JVal.jobj fields :: rest) ids_set
                            = (r, tra ++ tr) from by
                          simp [scan_playables, JVal.getKey, hii, htr, hei, JVal.asStr,
                            Except.bind, hmem, hmd, hof, hsa, hsp]]
                        exact hihr

/-! ## Lemmas: the HTML asset loop always reads assets[0] -/

theorem scan_html_assets_ret (load : Oracle) (assets : List JVal) (iter : List JVal)
    (url : String) (tr : List String)
    (h : scan_html_assets load assets iter = (Except.ok (some url), tr)) :
    first_asset_hls assets = Except.ok url := by
  induction iter generalizing tr with
  | nil => simp [scan_html_assets] at h
  | cons a rest ih =>
    simp only [scan_html_assets] at h
    cases a with
    | jnull => exact ih tr h
    | jbool b => exact ih tr h
    | jnum n => exact ih tr h
    | jstr s => exact ih tr h
    | jarr xs => exact ih tr h
    | jobj fields =>
      cases hl : fields.lookup "hlsUrl" with
      | none => simp only [hl] at h; exact ih tr h
      | some v =>
        simp only [hl] at h
        cases v with
        | jnull => exact ih tr h
        | jbool b => exact ih tr h
        | jnum n => exact ih tr h
        | jarr xs => exact ih tr h
        | jobj fs => exact ih tr h
        | jstr s =>
          cases hfa : first_asset_hls assets with
          | error e => simp only [hfa] at h; simp at h
          | ok u0 =>
            simp only [hfa] at h
            cases hld : load u0 with
            | ok =>
              simp only [hld, Prod.mk.injEq] at h
              obtain ⟨h1, h2⟩ := h
              simpa using h1
            | urlError =>
              simp only [hld] at h
              simp at h
            | valueError =>
              simp only [hld, Prod.mk.injEq] at h
              obtain ⟨h1, h2⟩ := h
              rcases hrec : scan_html_assets load assets rest with ⟨r, tr'⟩
              rw [hrec] at h1
              simp only at h1
              exact hfa.symm.trans (ih tr' (h1 ▸ hrec))
            | httpError =>
              simp only [hld, Prod.mk.injEq] at h
              obtain ⟨h1, h2⟩ := h
              rcases hrec : scan_html_assets load assets rest with ⟨r, tr'⟩
              rw [hrec] at h1
              simp only at h1
              exact hfa.symm.trans (ih tr' (h1 ▸ hrec))

theorem scan_html_assets_trace (load : Oracle) (assets iter : List JVal) (u : String)
    (hmem : u ∈ (scan_html_assets load assets iter).2) :
    first_asset_hls assets = Except.ok u := by
  induction iter with
  | nil => simp [scan_html_assets] at hmem
  | cons a rest ih =>
    simp only [scan_html_assets] at hmem
    cases a with
    | jnull => exact ih hmem
    | jbool b => exact ih hmem
    | jnum n => exact ih hmem
    | jstr s => exact ih hmem
    | jarr xs => exact ih hmem
    | jobj fields =>
      cases hl : fields.lookup "hlsUrl" with
      | none => simp only [hl] at hmem; exact ih hmem
      | some v =>
        simp only [hl] at hmem
        cases v with
        | jnull => exact ih hmem
        | jbool b => exact ih hmem
        | jnum n => exact ih hmem
        | jarr xs => exact ih hmem
        | jobj fs => exact ih hmem
        | jstr s =>
          cases hfa : first_asset_hls assets with
          | error e => simp only [hfa] at hmem; simp at hmem
          | ok u0 =>
            simp only [hfa] at hmem
            cases hld : load u0 with
            | ok =>
              simp only [hld, List.mem_singleton] at hmem
              rw [hmem]
            | urlError =>
              simp only [hld, List.mem_singleton] at hmem
              rw [hmem]
            | valueError =>
              simp only [hld, List.mem_cons] at hmem
              rcases hmem with h1 | h2
              · rw [h1]
              · exact hfa.symm.trans (ih h2)
            | httpError =>
              simp only [hld, List.mem_cons] at hmem
              rcases hmem with h1 | h2
              · rw [h1]
              · exact hfa.symm.trans (ih h2)

theorem scan_offer_item_ret (load : Oracle) (item : JVal) (url : String) (tr : List String)
    (h : scan_offer_item load item = (Except.ok (some url), tr)) :
    ∃ a, item_assets item = some a ∧ first_asset_hls a = Except.ok url := by
  cases item with
  | jnull => simp [scan_offer_item, JVal.getOpt] at h
  | jbool b => simp [scan_offer_item, JVal.getOpt] at h
  | jnum n => simp [scan_offer_item, JVal.getOpt] at h
  | jstr s => simp [scan_offer_item, JVal.getOpt] at h
  | jarr xs => simp [scan_offer_item, JVal.getOpt] at h
  | jobj fields =>
    cases hty : fields.lookup "type" with
    | none => simp [scan_offer_item, JVal.getOpt, hty] at h
    | some v =>
      cases v with
      | jnull => simp [scan_offer_item, JVal.getOpt, hty] at h
      | jbool b => simp [scan_offer_item, JVal.getOpt, hty] at h
      | jnum n => simp [scan_offer_item, JVal.getOpt, hty] at h
      | jarr xs => simp [scan_offer_item, JVal.getOpt, hty] at h
      | jobj fs => simp [scan_offer_item, JVal.getOpt, hty] at h
      | jstr t =>
        by_cases ht : t = "offer"
        · cases hat : fields.lookup "attributes" with
          | none => simp [scan_offer_item, JVal.getOpt, hty, ht, hat] at h
          | some av =>
            cases av with
            | jnull => simp [scan_offer_item, JVal.getOpt, hty, ht, hat] at h
            | jbool b => simp [scan_offer_item, JVal.getOpt, hty, ht, hat] at h
            | jnum n => simp [scan_offer_item, JVal.getOpt, hty, ht, hat] at h
            | jstr s => simp [scan_offer_item, JVal.getOpt, hty, ht, hat] at h
            | jarr xs => simp [scan_offer_item, JVal.getOpt, hty, ht, hat] at h
            | jobj attrs =>
              cases has : attrs.lookup "assets" with
              | none => simp [scan_offer_item, JVal.getOpt, hty, ht, hat, has] at h
              | some sv =>
                cases sv with
                | jnull => simp [scan_offer_item, JVal.getOpt, hty, ht, hat, has] at h
                | jbool b => simp [scan_offer_item, JVal.getOpt, hty, ht, hat, has] at h
                | jnum n => simp [scan_offer_item, JVal.getOpt, hty, ht, hat, has] at h
                | jstr s => simp [scan_offer_item, JVal.getOpt, hty, ht, hat, has] at h
                | jobj fs => simp [scan_offer_item, JVal.getOpt, hty, ht, hat, has] at h
                | jarr assets =>
                  cases hemp : assets.isEmpty with
                  | true =>
                    simp [scan_offer_item, JVal.getOpt, hty, ht, hat, has, hemp] at h
                  | false =>
                    rw [show scan_offer_item load (JVal.jobj fields)
                        = scan_html_assets load assets assets from by
                      simp [scan_offer_item, JVal.getOpt, hty, ht, hat, has, hemp]] at h
                    exact ⟨assets, by simp [item_assets, hty, ht, hat, has, hemp],
                      scan_html_assets_ret load assets assets url tr h⟩
        · simp [scan_offer_item, JVal.getOpt, hty, ht] at h

/-! ## Claim theorems -/

/-- C6 (counterexample): an uncaught transport error during the validation
fetch — `urllib.error.URLError` proper, matched by neither `except
ValueError` nor `except HTTPError` — propagates out of extraction to the
caller: on a well-formed response whose single candidate's fetch fails that
way, extraction returns the error after one load attempt. -/
theorem validation_urlerror_raises_counterexample :
    (find_playlist_data_itunes_json (fun _ => LoadResult.urlError) c6_itunes_jd).1
      = Except.error Err.urlError ∧
    (find_playlist_data_itunes_json (fun _ => LoadResult.urlError) c6_itunes_jd).2
      = ["u"] :=
  ⟨rfl, rfl⟩

/-- C6 (amended): the validation failures the code catches — playlist parse
errors (`ValueError`) and HTTP error statuses (`HTTPError`) — are swallowed
and only skip the candidate, and each candidate is loaded at most once, in
scan order (the `m3u8.load` trace is a subsequence of the candidate URL
list); provided no fetch fails with an uncaught transport error
(`URLError`), extraction never raises. -/
theorem validation_catches_parse_and_http_errors (load : Oracle) (jd jd' : JVal)
    (f : ItunesFields) (g : AppletvFields)
    (hf : parse_itunes_fields jd = Except.ok f)
    (hfo : f.offers.all offer_well_formed = true)
    (hg : parse_appletv_fields jd' = Except.ok g)
    (hgp : g.playables.all playable_well_formed = true)
    (hnu : ∀ u, load u ≠ LoadResult.urlError) :
    except_is_ok (find_playlist_data_itunes_json load jd).1 = true ∧
    List.Sublist (find_playlist_data_itunes_json load jd).2
      (itunes_candidate_urls f.offers) ∧
    except_is_ok (find_playlist_data_appletv_json load jd').1 = true ∧
    List.Sublist (find_playlist_data_appletv_json load jd').2
      (appletv_candidate_urls g.playables) := by
  obtain ⟨hok1, hsub1⟩ := scan_offers_wf load f.offers hfo
  obtain ⟨hok2, hsub2⟩ := scan_playables_wf load g.playables [] hgp
  obtain ⟨res, hres⟩ := hok1 hnu
  obtain ⟨ps, hps⟩ := hok2 hnu
  rcases hso : scan_offers load f.offers with ⟨r, tr⟩
  rw [hso] at hres hsub1
  simp only at hres hsub1
  rcases hsp : scan_playables load g.playables [] with ⟨r', tr'⟩
  rw [hsp] at hps hsub2
  simp only at hps hsub2
  subst hres
  subst hps
  refine ⟨?_, ?_, ?_, ?_⟩
  · cases res with
    | some url => simp [find_playlist_data_itunes_json, hf, hso, except_is_ok]
    | none => simp [find_playlist_data_itunes_json, hf, hso, except_is_ok]
  · cases res with
    | some url => simpa [find_playlist_data_itunes_json, hf, hso] using hsub1
    | none => simpa [find_playlist_data_itunes_json, hf, hso] using hsub1
  · simp [find_playlist_data_appletv_json, hg, hsp, except_is_ok]
  · simpa [find_playlist_data_appletv_json, hg, hsp] using hsub2

/-- Witness for the amended C6 at concrete well-formed inputs and an oracle
failing every fetch with an HTTP error status. -/
theorem validation_catches_parse_and_http_errors_witness :
    except_is_ok (find_playlist_data_itunes_json (fun _ => LoadResult.httpError)
      c6_itunes_jd).1 = true ∧
    List.Sublist (find_playlist_data_itunes_json (fun _ => LoadResult.httpError)
      c6_itunes_jd).2 (itunes_candidate_urls [c6_offer]) ∧
    except_is_ok (find_playlist_data_appletv_json (fun _ => LoadResult.httpError)
      c6_appletv_jd).1 = true ∧
    List.Sublist (find_playlist_data_appletv_json (fun _ => LoadResult.httpError)
      c6_appletv_jd).2 (appletv_candidate_urls [c4_playable "u"]) :=
  validation_catches_parse_and_http_errors (fun _ => LoadResult.httpError)
    c6_itunes_jd c6_appletv_jd ⟨"42", "Movie", 2021, [c6_offer]⟩
    ⟨"Movie", 1970, [c4_playable "u"]⟩ rfl rfl rfl rfl
    (fun _ h => LoadResult.noConfusion h)

/-- C9 (counterexample): a response whose shape parses and in which no asset
validates is not always a non-error outcome: when the single candidate's
validation fetch fails with an uncaught transport error (`URLError`),
extraction raises instead of returning the empty-asset record. -/
theorem zero_valid_assets_urlerror_counterexample :
    parse_appletv_fields c6_appletv_jd
      = Except.ok ⟨"Movie", 1970, [c4_playable "u"]⟩ ∧
    (find_playlist_data_appletv_json (fun _ => LoadResult.urlError) c6_appletv_jd).1
      = Except.error Err.urlError :=
  ⟨rfl, rfl⟩

/-- C9 (amended): a response whose shape parses and in which every candidate
fails validation with a caught failure (parse error or HTTP error status) is
not an error: extraction returns the record with title and release year
populated and an empty asset list. -/
theorem zero_caught_valid_assets_not_error (load : Oracle) (jd jd' : JVal)
    (f : ItunesFields) (g : AppletvFields)
    (hf : parse_itunes_fields jd = Except.ok f)
    (hfo : f.offers.all offer_well_formed = true)
    (hg : parse_appletv_fields jd' = Except.ok g)
    (hgp : g.playables.all playable_well_formed = true)
    (hcaught : ∀ u, load u = LoadResult.valueError ∨ load u = LoadResult.httpError) :
    (find_playlist_data_itunes_json load jd).1
      = Except.ok ⟨DataSource.itunes, f.movie_title, f.movie_release_year, []⟩ ∧
    (find_playlist_data_appletv_json load jd').1
      = Except.ok ⟨DataSource.appletv, g.movie_title, g.movie_release_year, []⟩ := by
  have h1 := scan_offers_allfail load f.offers hfo hcaught
  have h2 := scan_playables_allfail load g.playables [] hgp hcaught
  rcases hso : scan_offers load f.offers with ⟨r, tr⟩
  rw [hso] at h1
  simp only at h1
  subst h1
  rcases hsp : scan_playables load g.playables [] with ⟨r', tr'⟩
  rw [hsp] at h2
  simp only at h2
  subst h2
  constructor
  · simp [find_playlist_data_itunes_json, hf, hso]
  · simp [find_playlist_data_appletv_json, hg, hsp]

/-- Witness for the amended C9 at the same concrete inputs with an oracle on
which every validation fetch fails with a parse error. -/
theorem zero_caught_valid_assets_not_error_witness :
    (find_playlist_data_itunes_json (fun _ => LoadResult.valueError) c6_itunes_jd).1
      = Except.ok ⟨DataSource.itunes, "Movie", 2021, []⟩ ∧
    (find_playlist_data_appletv_json (fun _ => LoadResult.valueError) c6_appletv_jd).1
      = Except.ok ⟨DataSource.appletv, "Movie", 1970, []⟩ :=
  zero_caught_valid_assets_not_error (fun _ => LoadResult.valueError)
    c6_itunes_jd c6_appletv_jd ⟨"42", "Movie", 2021, [c6_offer]⟩
    ⟨"Movie", 1970, [c4_playable "u"]⟩ rfl rfl rfl rfl (fun _ => Or.inl rfl)

/-- C3 (counterexample): a structured-JSON response whose body lacks the
required field `pageData` makes the iTunes extraction fail immediately with
that key error; only the JSON strategy is entered and the HTML fallback
strategy is never attempted. -/
theorem json_missing_field_no_html_fallback_counterexample :
    (get_movie_data_itunes (fun _ => LoadResult.valueError) c3_resp).1
      = Except.error (Err.keyError "pageData") ∧
    (get_movie_data_itunes (fun _ => LoadResult.valueError) c3_resp).2.2
      = [Strategy.itunesJson] ∧
    Strategy.itunesHtml ∉ (get_movie_data_itunes (fun _ => LoadResult.valueError) c3_resp).2.2 := by
  refine ⟨rfl, rfl, ?_⟩
  intro hmem
  rw [show (get_movie_data_itunes (fun _ => LoadResult.valueError) c3_resp).2.2
      = [Strategy.itunesJson] from rfl] at hmem
  simp at hmem

/-- C3 (amended): strategy choice in `get_movie_data` is by content type
alone — for a JSON content-type response the HTML strategy is never entered,
and the call's outcome is exactly the JSON strategy's outcome (so a missing
required field raises immediately; no fallback exists). -/
theorem json_strategy_no_html_fallback (load : Oracle) (resp : HttpResponse)
    (h : str_contains resp.content_type "application/json" = true) :
    Strategy.itunesHtml ∉ (get_movie_data_itunes load resp).2.2 ∧
    (∀ jd, resp.json_body = some jd → resp.status_code < 400 →
      (get_movie_data_itunes load resp).1 = (find_playlist_data_itunes_json load jd).1) := by
  by_cases hs : resp.status_code ≥ 400
  · constructor
    · simp [get_movie_data_itunes, hs]
    · intro jd hjd hlt
      omega
  · cases hjb : resp.json_body with
    | none =>
      constructor
      · simp [get_movie_data_itunes, hs, h, hjb]
      · intro jd hjd hlt
        cases hjd
    | some jd0 =>
      rcases hfp : find_playlist_data_itunes_json load jd0 with ⟨r, tr⟩
      constructor
      · simp [get_movie_data_itunes, hs, h, hjb, hfp]
      · intro jd hjd hlt
        injection hjd with hh
        subst hh
        simp [get_movie_data_itunes, hs, h, hjb, hfp]

/-- Witness for the amended C3 at the concrete missing-field response. -/
theorem json_strategy_no_html_fallback_witness :
    Strategy.itunesHtml ∉ (get_movie_data_itunes (fun _ => LoadResult.valueError) c3_resp).2.2 ∧
    (∀ jd, c3_resp.json_body = some jd → c3_resp.status_code < 400 →
      (get_movie_data_itunes (fun _ => LoadResult.valueError) c3_resp).1
        = (find_playlist_data_itunes_json (fun _ => LoadResult.valueError) jd).1) :=
  json_strategy_no_html_fallback (fun _ => LoadResult.valueError) c3_resp rfl

/-- C4 (code evaluated at the failing input): `itunes_ids_set` is checked
but never added to, so two playables sharing the external id "123" both
contribute an entry — the returned asset list holds two references with the
same platform id, against the selection policy (and against the source's own
comment). -/
theorem appletv_duplicate_platform_id :
    (find_playlist_data_appletv_json (fun _ => LoadResult.ok) c4_input).1
      = Except.ok ⟨DataSource.appletv, "Movie", 1970,
          [⟨"123", "u1"⟩, ⟨"123", "u2"⟩]⟩ ∧
    ((find_playlist_data_appletv_json (fun _ => LoadResult.ok) c4_input).1.map
      (fun m => m.playlists.map PlaylistData.itunes_id)) = Except.ok ["123", "123"] :=
  ⟨rfl, rfl⟩

/-- C5 (code evaluated at the failing input): filter entries are lower-cased
but the display name is compared as written, so the filter entry "ENGLISH"
fails to select the track named "English" (equal up to letter case), even
though the same track is yielded when no filter is given. -/
theorem name_filter_not_case_insensitive :
    find_subtitles ⟨[c5_track]⟩ (some ["ENGLISH"]) = [] ∧
    find_subtitles ⟨[c5_track]⟩ none
      = [⟨"en", "English", SubtitlesType.NORMAL, "u"⟩] :=
  ⟨rfl, rfl⟩

/-- C7: release-year derivation handles both date encodings and yields the
correct calendar year: the calendar-date string "2021-07-09" resolves to
2021 without raising, and the epoch-millisecond value -86400000 (one day
before the epoch) resolves to 1969. -/
theorem release_year_both_encodings :
    strptime_ymd_year "2021-07-09" = Except.ok 2021 ∧
    appletv_release_year (-86400000) = 1969 :=
  ⟨rfl, rfl⟩

/-- C8: the output file name follows
slug[.year].iT.WEB.lang[.kind].ext — the year segment is omitted when the
year already occurs in the title and the kind suffix is omitted for NORMAL —
checked at the three specified inputs. -/
theorem file_name_pattern_examples :
    format_file_name "Example Movie" 2021 "en" SubtitlesType.NORMAL SubtitlesFormat.VTT
      = "example.movie.2021.iT.WEB.en.vtt" ∧
    format_file_name "Example Movie" 2021 "en" SubtitlesType.FORCED SubtitlesFormat.VTT
      = "example.movie.2021.iT.WEB.en.forced.vtt" ∧
    format_file_name "Example Movie 2021" 2021 "en" SubtitlesType.NORMAL SubtitlesFormat.VTT
      = "example.movie.2021.iT.WEB.en.vtt" :=
  ⟨rfl, rfl, rfl⟩

/-- C10: in the iTunes HTML strategy, the URL that is validated and the URL
placed into the result always come from element 0 of the offer item's assets
list: every URL in the per-asset loop's load trace equals
`assets[0]["hlsUrl"]`, whichever asset iteration produced it, and a
successful return's URL equals it too (also at the offer-item level). -/
theorem html_url_always_from_first_asset (load : Oracle) (item : JVal)
    (assets iter : List JVal) (url : String) (tr : List String) :
    (scan_html_assets load assets iter = (Except.ok (some url), tr) →
      first_asset_hls assets = Except.ok url) ∧
    (∀ u, u ∈ (scan_html_assets load assets iter).2 →
      first_asset_hls assets = Except.ok u) ∧
    (scan_offer_item load item = (Except.ok (some url), tr) →
      ∃ a, item_assets item = some a ∧ first_asset_hls a = Except.ok url) :=
  ⟨fun h => scan_html_assets_ret load assets iter url tr h,
   fun u hu => scan_html_assets_trace load assets iter u hu,
   fun h => scan_offer_item_ret load item url tr h⟩

/-- Witness for C10: a concrete offer item with two assets, validated with
an always-succeeding oracle; the returned URL is asset 0's. -/
theorem html_url_always_from_first_asset_witness :
    first_asset_hls c10_assets = Except.ok "u0" ∧
    (∃ a, item_assets c10_item = some a ∧ first_asset_hls a = Except.ok "u0") :=
  ⟨(html_url_always_from_first_asset (fun _ => LoadResult.ok) c10_item
      c10_assets c10_assets "u0" ["u0"]).1 rfl,
   (html_url_always_from_first_asset (fun _ => LoadResult.ok) c10_item
      c10_assets c10_assets "u0" ["u0"]).2.2 rfl⟩
